import Mathlib

/-! # obftest: a bounded-concurrency HTTP health checker (`src/cpp/main.cpp`)

A shallow embedding of the C++ program and theorems about it.

* `std::string` is a `String`, read through its character list `String.data`.
* `double` (and so `duration<double>`, in seconds) is `F64`: the finite binary64 values as
  integer multiples of `2^-1074`, every arithmetic operation rounded to nearest, ties to even,
  as IEEE-754 prescribes; infinities and NaN are merged into `F64.nonfinite`, and the sign of
  zero is not tracked.
* A thrown exception (`std::invalid_argument`, `std::out_of_range`, `std::length_error`) and
  undefined behaviour are `none`.
* `Runner::CheckRsr` is a step function on an explicit state: the main thread admits targets,
  every worker thread advances through its critical sections one at a time.
* The 64-bit counters of `Stats` are integers: a run records one outcome per element of a
  `std::vector`, far fewer than `2^63`.
-/

namespace Obftest

/-! ## binary64 arithmetic -/

/-- Number of binary digits of the second argument (`0` for `0`); the first argument is fuel. -/
def bitLenAux : Nat → Nat → Nat
  | 0, _ => 0
  | fuel + 1, n => if n = 0 then 0 else bitLenAux fuel (n / 2) + 1

/-- Number of binary digits of `n`. -/
def bitLen (n : Nat) : Nat := bitLenAux n n

/-- The integer nearest to `n / d`, ties to the even one (`d > 0`). -/
def roundNearestEven (n d : Nat) : Nat :=
  if d < 2 * (n % d) ∨ (2 * (n % d) = d ∧ (n / d) % 2 = 1) then n / d + 1 else n / d

/-- A `double`. `finite k` is the number `k * 2^-1074`; `nonfinite` is an infinity or a NaN. -/
inductive F64 where
  | finite (units : Int)
  | nonfinite
  deriving DecidableEq

namespace F64

/-- The binary64 value nearest to `num / den` units of `2^-1074` (ties to even). A magnitude
below `2^53` units is a multiple of one unit; above, the spacing is `2^s` units with
`s = bitLen - 53`. A rounded magnitude of `2^1024` or more overflows. -/
def ofUnits (num : Int) (den : Nat) : F64 :=
  if den = 0 then nonfinite
  else
    let n := num.natAbs
    let s := bitLen (n / den) - 53
    let k := roundNearestEven n (den * 2 ^ s) * 2 ^ s
    if 2 ^ 2098 ≤ k then nonfinite
    else finite (if num < 0 then -(k : Int) else (k : Int))

/-- The binary64 value nearest to the rational `num / den`. -/
def ofRat (num : Int) (den : Nat) : F64 := ofUnits (num * 2 ^ 1074) den

/-- Conversion of an integer to `double`. -/
def ofInt (z : Int) : F64 := ofRat z 1

/-- The operator `+` of `double`. -/
def add : F64 → F64 → F64
  | finite a, finite b => ofUnits (a + b) 1
  | _, _ => nonfinite

/-- The operator `*` of `double`. -/
def mul : F64 → F64 → F64
  | finite a, finite b => ofUnits (a * b) (2 ^ 1074)
  | _, _ => nonfinite

/-- The operator `/` of `double`. -/
def div : F64 → F64 → F64
  | finite a, finite b =>
    if b = 0 then nonfinite
    else ofUnits (if b < 0 then -(a * 2 ^ 1074) else a * 2 ^ 1074) b.natAbs
  | _, _ => nonfinite

/-- The conversion `static_cast<long>(x)` of a `double` to a 64-bit `long`: the value
truncated toward zero; undefined (`none`) when that is not a `long`. -/
def static_cast_long : F64 → Option Int
  | finite k =>
    let z := Int.tdiv k (2 ^ 1074)
    if -(2 ^ 63) ≤ z ∧ z < 2 ^ 63 then some z else none
  | nonfinite => none

/-- The rational number a finite `double` stands for. -/
def toRat : F64 → Option ℚ
  | finite k => some ((k : ℚ) / 2 ^ 1074)
  | nonfinite => none

end F64

/-! ## `parse_duration` -/

/-- The C++ `s.find_first_not_of(chars)`: index of the first character of `s` that is not in
`chars`; `none` is `string::npos`. -/
def find_first_not_of : List Char → List Char → Option Nat
  | [], _ => none
  | c :: t, chars =>
    if c ∈ chars then (find_first_not_of t chars).map (· + 1) else some 0

/-- Value of a string of decimal digits. -/
def decimalValue (ds : List Char) : Nat :=
  ds.foldl (fun acc c => 10 * acc + (c.toNat - 48)) 0

/-- The C++ `std::stod` on the strings `parse_duration` hands to it, which are made of the
characters `0123456789.` only: the longest prefix of the form digits, optional point, digits
is converted, correctly rounded. `none` is an exception: `std::invalid_argument` when that
prefix holds no digit; `std::out_of_range` when `strtod` reports a range error, which it does
when the value exceeds the range of `double` and, with glibc, when the value is below the
smallest normal `double` `2^-1022` and is not a `double` itself. -/
def stod (s : List Char) : Option F64 :=
  let ip := s.takeWhile Char.isDigit
  let fp := match s.dropWhile Char.isDigit with
    | '.' :: t => t.takeWhile Char.isDigit
    | _ => []
  if ip = [] ∧ fp = [] then none
  else
    match F64.ofRat (decimalValue (ip ++ fp)) (10 ^ fp.length) with
    | F64.nonfinite => none
    | F64.finite k =>
      if decimalValue (ip ++ fp) * 2 ^ 1022 < 10 ^ fp.length
          ∧ k * (10 ^ fp.length : Nat) ≠ (decimalValue (ip ++ fp) : Int) * 2 ^ 1074
      then none
      else some (F64.finite k)

/-- The function `parse_duration` of `main.cpp`, in seconds. -/
def parse_duration (s : String) : Option F64 :=
  if s.data = [] then some (F64.ofInt 5)
  else
    match find_first_not_of s.data "0123456789.".data with
    | none => stod s.data
    | some pos =>
      match stod (s.data.take pos) with
      | none => none
      | some value =>
        let unit := s.data.drop pos
        if unit = "s".data ∨ unit = "S".data then some value
        else if unit = "ms".data ∨ unit = "MS".data then some (F64.div value (F64.ofInt 1000))
        else if unit = "m".data ∨ unit = "M".data then some (F64.mul value (F64.ofInt 60))
        else some value

/-! ## Targets, outcomes, statistics -/

/-- The struct `Rsr`: one probe target. -/
structure Rsr where
  ID : String
  Dest : String
  deriving DecidableEq

/-- The struct `Rslt`: the outcome of one probe. `Timestamp` is in nanoseconds since the
epoch of `system_clock`. -/
structure Rslt where
  Rsr : Rsr
  IsChkSuccess : Bool
  ChkLatency : F64
  Error : String
  Timestamp : Int
  deriving DecidableEq

/-- The class `Stats`: the running counters and the accumulated latency. -/
structure Stats where
  Total : Int
  Success : Int
  Failures : Int
  Errors : Int
  TotalLatency : F64
  deriving DecidableEq

/-- A freshly constructed `Stats`: every counter `0`, latency `duration<double>::zero()`. -/
def Stats.zero : Stats :=
  { Total := 0, Success := 0, Failures := 0, Errors := 0, TotalLatency := F64.finite 0 }

/-- The method `Stats::copy`: a snapshot taken under the lock `mu`. -/
def Stats.copy (s : Stats) : Stats :=
  { Total := s.Total, Success := s.Success, Failures := s.Failures, Errors := s.Errors,
    TotalLatency := s.TotalLatency }

/-- The function `GenerateRsrs`. `rsrs.reserve(count)` throws `std::length_error` for a
negative `count` (`none`); otherwise the loop pushes one target for `i = 0 .. count - 1`. -/
def GenerateRsrs (baseURL : String) (count : Int) : Option (List Rsr) :=
  if count < 0 then none
  else some ((List.range count.toNat).map fun i =>
    { ID := "rsr-" ++ toString (i + 1), Dest := baseURL ++ "/health" })

/-! ## `Runner::Chk` -/

/-- The class `Runner`, its configuration members. The queue `rslts` and the `Stats` it owns
are part of `CheckRsr.State`. -/
structure Runner where
  timeout : F64
  max : Int

/-- What one call of `Runner::Chk` hands to libcurl with `curl_easy_setopt`. -/
structure CurlOptions where
  URL : String
  HTTPHEADER : List String
  SSL_VERIFYPEER : Int
  SSL_VERIFYHOST : Int
  TIMEOUT : Int
  CONNECTTIMEOUT : Int
  deriving DecidableEq

/-- The options `Runner::Chk` sets on its handle for the target `rsr`; both timeouts are
`static_cast<long>(timeout.count())`, and the result is `none` where that cast is undefined. -/
def Runner.curlOptions (r : Runner) (rsr : Rsr) : Option CurlOptions :=
  match F64.static_cast_long r.timeout, F64.static_cast_long r.timeout with
  | some t, some ct =>
    some { URL := rsr.Dest,
           HTTPHEADER := ["User-Agent: Checker/1.0", "Connection: close"],
           SSL_VERIFYPEER := 0, SSL_VERIFYHOST := 0,
           TIMEOUT := t, CONNECTTIMEOUT := ct }
  | _, _ => none

/-- What the outside world answers to one call of `Runner::Chk`: the clock readings (in
nanoseconds) and the behaviour of libcurl, a black box. -/
structure Transfer where
  /-- The clock at entry, `system_clock::now()`. -/
  start : Int
  /-- The clock when `rslt.Timestamp` is taken. -/
  timestamp : Int
  /-- Whether `curl_easy_init()` returned a handle. -/
  handle : Bool
  /-- The `CURLcode` returned by `curl_easy_perform`; `0` is `CURLE_OK`. -/
  res : Nat
  /-- The status read with `CURLINFO_RESPONSE_CODE`. -/
  response_code : Int
  /-- The text `curl_easy_strerror(res)`. -/
  strerror : String
  /-- The clock when the latency is taken. -/
  finish : Int

/-- The code `CURLE_OK`. -/
def CURLE_OK : Nat := 0

/-- The latency `duration<double>(system_clock::now() - start)`: a count of nanoseconds
converted to `double` and divided by `1e9`. -/
def Runner.latency (w : Transfer) : F64 :=
  F64.div (F64.ofInt (w.finish - w.start)) (F64.ofInt 1000000000)

/-- The method `Runner::Chk`. -/
def Runner.Chk (w : Transfer) (rsr : Rsr) : Rslt :=
  if w.handle = false then
    { Rsr := rsr, Timestamp := w.timestamp, IsChkSuccess := false,
      Error := "Failed to create curl handle", ChkLatency := Runner.latency w }
  else if w.res = CURLE_OK then
    { Rsr := rsr, Timestamp := w.timestamp,
      IsChkSuccess := decide (200 ≤ w.response_code ∧ w.response_code < 400),
      Error := "", ChkLatency := Runner.latency w }
  else
    { Rsr := rsr, Timestamp := w.timestamp, IsChkSuccess := false,
      Error := w.strerror, ChkLatency := Runner.latency w }

/-! ## `Runner::CheckRsr` -/

namespace CheckRsr

/-- The guarded push of a worker thread, under `rslts_mutex`:
`if (rslts.size() < 1000) rslts.push(result)`. The queue is listed front first. -/
def pushRslt (rslts : List Rslt) (result : Rslt) : List Rslt :=
  if rslts.length < 1000 then rslts ++ [result] else rslts

/-- The statistics update of a worker thread, under `stats->mu`. -/
def updateStats (stats : Stats) (result : Rslt) : Stats :=
  let s1 := { stats with Total := stats.Total + 1 }
  let s2 :=
    if result.IsChkSuccess = true then { s1 with Success := s1.Success + 1 }
    else { s1 with Failures := s1.Failures + 1 }
  let s3 := if result.Error ≠ "" then { s2 with Errors := s2.Errors + 1 } else s2
  { s3 with TotalLatency := F64.add s3.TotalLatency result.ChkLatency }

/-- A worker thread, by the point its lambda has reached. -/
inductive Task where
  /-- Launched; `Chk` has not returned yet. -/
  | started (rsr : Rsr)
  /-- `Chk` returned `result`. -/
  | checked (rsr : Rsr) (result : Rslt)
  /-- The guarded push is done. -/
  | pushed (rsr : Rsr) (result : Rslt)
  /-- The statistics are updated; the slot is still held. -/
  | recorded (rsr : Rsr) (result : Rslt)
  deriving DecidableEq

/-- The critical sections a thread still has to go through, the release included. -/
def Task.remaining : Task → Nat
  | .started _ => 4
  | .checked _ _ => 3
  | .pushed _ _ => 2
  | .recorded _ _ => 1

/-- The target of a thread. -/
def Task.rsr : Task → Rsr
  | .started r => r
  | .checked r _ => r
  | .pushed r _ => r
  | .recorded r _ => r

/-- Whether the thread has updated the statistics. -/
def Task.isRecorded : Task → Bool
  | .recorded _ _ => true
  | _ => false

/-- The state of one call of `Runner::CheckRsr`. -/
structure State where
  /-- The targets the `for` loop has not reached. -/
  pending : List Rsr
  /-- The threads whose lambda has not finished, oldest first. -/
  tasks : List Task
  sem_count : Int
  active_threads : Int
  /-- The queue `rslts`, front first. -/
  rslts : List Rslt
  /-- The object `*stats`. -/
  stats : Stats
  deriving DecidableEq

/-- One atomic step: the main thread admits the next target, or the `i`-th live thread goes
through its next critical section. -/
inductive Action where
  | launch
  | advance (i : Nat)
  deriving DecidableEq

/-- The state at entry, for a runner that has not run yet. -/
def init (rsrs : List Rsr) : State :=
  { pending := rsrs, tasks := [], sem_count := 0, active_threads := 0, rslts := [],
    stats := Stats.zero }

/-- One step of `CheckRsr`; `none` when the step is not enabled. `launch` is the body of the
`for` loop: it passes `cv.wait` only when `sem_count < max`. `advance i` is thread `i`: the
call of `Chk`, the guarded push, the statistics update, the release of the slot. -/
def step (max : Int) (chk : Rsr → Rslt) (s : State) : Action → Option State
  | .launch =>
    match s.pending with
    | [] => none
    | rsr :: rest =>
      if s.sem_count < max then
        some { s with pending := rest, sem_count := s.sem_count + 1,
                      active_threads := s.active_threads + 1,
                      tasks := s.tasks ++ [Task.started rsr] }
      else none
  | .advance i =>
    match s.tasks.get? i with
    | none => none
    | some (.started rsr) =>
      some { s with tasks := s.tasks.set i (Task.checked rsr (chk rsr)) }
    | some (.checked rsr result) =>
      some { s with rslts := pushRslt s.rslts result,
                    tasks := s.tasks.set i (Task.pushed rsr result) }
    | some (.pushed rsr result) =>
      some { s with stats := updateStats s.stats result,
                    tasks := s.tasks.set i (Task.recorded rsr result) }
    | some (.recorded _ _) =>
      some { s with sem_count := s.sem_count - 1, active_threads := s.active_threads - 1,
                    tasks := s.tasks.eraseIdx i }

/-- The state after a sequence of steps; `none` when one of them is not enabled. -/
def run (max : Int) (chk : Rsr → Rslt) : List Action → State → Option State
  | [], s => some s
  | a :: as, s =>
    match step max chk s a with
    | none => none
    | some s' => run max chk as s'

/-- The call has returned: the loop is over and every thread is joined. -/
def returned (s : State) : Bool := s.pending.isEmpty && s.tasks.isEmpty

/-- The atomic steps left before the call returns. -/
def stepsLeft (s : State) : Nat := 5 * s.pending.length + (s.tasks.map Task.remaining).sum

/-- Whether the thread is inside `Chk`, executing its HTTP request. -/
def Task.inChk : Task → Bool
  | .started _ => true
  | _ => false

/-- A server that answers `200` ten milliseconds after the request. -/
def healthy10ms : Transfer :=
  { start := 0, timestamp := 0, handle := true, res := CURLE_OK, response_code := 200,
    strerror := "No error", finish := 10000000 }

/-- A server that answers `404` ten milliseconds after the request. -/
def notFound10ms : Transfer :=
  { start := 0, timestamp := 0, handle := true, res := CURLE_OK, response_code := 404,
    strerror := "No error", finish := 10000000 }

/-- A transfer that fails after five seconds with `CURLE_OPERATION_TIMEDOUT` (28). -/
def timedOut : Transfer :=
  { start := 0, timestamp := 0, handle := true, res := 28, response_code := 0,
    strerror := "Timeout was reached", finish := 5000000000 }

/-- A call for which `curl_easy_init()` returns no handle. -/
def noHandle : Transfer :=
  { start := 0, timestamp := 0, handle := false, res := CURLE_OK, response_code := 0,
    strerror := "No error", finish := 1000 }

/-- A server that answers `200` to `rsr-1` and `rsr-4`, `404` to `rsr-2` and `rsr-5`, and
lets the transfer to any other target time out. -/
def alternating (rsr : Rsr) : Transfer :=
  if rsr.ID = "rsr-1" ∨ rsr.ID = "rsr-4" then healthy10ms
  else if rsr.ID = "rsr-2" ∨ rsr.ID = "rsr-5" then notFound10ms
  else timedOut

/-- A schedule for five targets and five slots: launch all, then let the threads run to
their end, the oldest first. -/
def schedule5 : List Action :=
  List.replicate 5 Action.launch ++ List.replicate 20 (Action.advance 0)

/-- The targets `rsr-1 .. rsr-n` of the default base URL. -/
def targets (n : Nat) : List Rsr :=
  (List.range n).map fun i =>
    { ID := "rsr-" ++ toString (i + 1), Dest := "http://localhost:8080/health" }

/-- A schedule for ten targets and three slots: fill the slots; seven times, let the oldest
thread run to its end and admit the next target; let the last three threads run to their
end. -/
def schedule10 : List Action :=
  List.replicate 3 Action.launch
    ++ (List.replicate 7 [Action.advance 0, Action.advance 0, Action.advance 0,
          Action.advance 0, Action.launch]).flatten
    ++ List.replicate 12 (Action.advance 0)

/-- A server that answers `200` to `rsr-1` after 100 ms, to `rsr-2` after 200 ms and to any
other target after 300 ms. -/
def slowerByTarget (rsr : Rsr) : Transfer :=
  { start := 0, timestamp := 0, handle := true, res := CURLE_OK, response_code := 200,
    strerror := "No error",
    finish := if rsr.ID = "rsr-1" then 100000000
              else if rsr.ID = "rsr-2" then 200000000 else 300000000 }

/-- Three targets admitted, then the threads run to their end one after the other, the
oldest first: the outcomes are recorded in the order `rsr-1`, `rsr-2`, `rsr-3`. -/
def oldestFirst : List Action :=
  List.replicate 3 Action.launch ++ List.replicate 12 (Action.advance 0)

/-- Three targets admitted, then the threads run to their end one after the other, the
youngest first: the outcomes are recorded in the order `rsr-3`, `rsr-2`, `rsr-1`. -/
def youngestFirst : List Action :=
  List.replicate 3 Action.launch ++ List.replicate 4 (Action.advance 2)
    ++ List.replicate 4 (Action.advance 1) ++ List.replicate 4 (Action.advance 0)

end CheckRsr

/-- A decimal numeral: the digits `ip`, then, when `pt` holds, a point and the digits `fp`. -/
def numeral (ip fp : List Char) (pt : Bool) : String :=
  ⟨ip ++ (if pt then '.' :: fp else [])⟩

/-! # Theorems -/

open CheckRsr

/-! ## Lemmas on strings -/

theorem find_first_not_of_all (n chars : List Char) (h : ∀ c ∈ n, c ∈ chars) :
    find_first_not_of n chars = none := by
  induction n with
  | nil => rfl
  | cons c t ih =>
    have hc : c ∈ chars := h c (List.mem_cons_self c t)
    have ht : ∀ d ∈ t, d ∈ chars := fun d hd => h d (List.mem_cons_of_mem c hd)
    simp [find_first_not_of, hc, ih ht]

theorem find_first_not_of_append (n chars : List Char) (c : Char) (t : List Char)
    (h : ∀ d ∈ n, d ∈ chars) (hc : c ∉ chars) :
    find_first_not_of (n ++ c :: t) chars = some n.length := by
  induction n with
  | nil => simp [find_first_not_of, hc]
  | cons d n ih =>
    have hd : d ∈ chars := h d (List.mem_cons_self d n)
    have hn : ∀ e ∈ n, e ∈ chars := fun e he => h e (List.mem_cons_of_mem d he)
    simp [find_first_not_of, hd, ih hn]

/-- What `parse_duration` does with a numeric prefix `n` followed by a unit `c :: t`. -/
theorem parse_duration_split (n : List Char) (c : Char) (t : List Char) (v : F64)
    (h : ∀ d ∈ n, d ∈ "0123456789.".data) (hc : c ∉ "0123456789.".data)
    (hv : stod n = some v) :
    parse_duration ⟨n ++ c :: t⟩ =
      if c :: t = "s".data ∨ c :: t = "S".data then some v
      else if c :: t = "ms".data ∨ c :: t = "MS".data then some (F64.div v (F64.ofInt 1000))
      else if c :: t = "m".data ∨ c :: t = "M".data then some (F64.mul v (F64.ofInt 60))
      else some v := by
  have hfind := find_first_not_of_append n _ c t h hc
  have hne : n ++ c :: t ≠ [] := by simp
  simp only [parse_duration, hne, if_false, hfind, List.take_left, List.drop_left, hv]

theorem parse_duration_bare (n : List Char) (h : ∀ d ∈ n, d ∈ "0123456789.".data)
    (hne : n ≠ []) : parse_duration ⟨n⟩ = stod n := by
  simp only [parse_duration, hne, if_false, find_first_not_of_all n _ h]

theorem isDigit_mem (c : Char) (h : c.isDigit = true) : c ∈ "0123456789.".data := by
  have h1 : 48 ≤ c.toNat ∧ c.toNat ≤ 57 := by
    simp only [Char.isDigit, Bool.and_eq_true, decide_eq_true_eq] at h
    exact ⟨h.1, h.2⟩
  have h2 : c = Char.ofNat c.toNat := (Char.ofNat_toNat c).symm
  obtain ⟨hlo, hhi⟩ := h1
  generalize c.toNat = m at h2 hlo hhi
  subst h2
  interval_cases m <;> decide

theorem numeral_chars (ip fp : List Char) (pt : Bool)
    (hip : ∀ c ∈ ip, c.isDigit = true) (hfp : ∀ c ∈ fp, c.isDigit = true) :
    ∀ c ∈ (numeral ip fp pt).data, c ∈ "0123456789.".data := by
  intro c hc
  cases pt with
  | false =>
    simp only [numeral, Bool.false_eq_true, if_false, List.append_nil] at hc
    exact isDigit_mem c (hip c hc)
  | true =>
    simp only [numeral, if_true, List.mem_append, List.mem_cons] at hc
    rcases hc with h | h | h
    · exact isDigit_mem c (hip c h)
    · subst h; decide
    · exact isDigit_mem c (hfp c h)

theorem ofRat_zero (den : Nat) (h : den ≠ 0) : F64.ofRat 0 den = F64.finite 0 := by
  have hb : bitLen 0 = 0 := rfl
  have hpos : ¬ (2 : Nat) ^ 2098 ≤ 0 := not_le.mpr (pow_pos two_pos 2098)
  have hr : roundNearestEven 0 den = 0 := by
    unfold roundNearestEven
    rw [if_neg]
    · exact Nat.zero_div den
    · simp only [Nat.zero_mod, Nat.mul_zero, Nat.not_lt_zero, false_or, not_and]
      intro h0
      exact absurd h0.symm h
  unfold F64.ofRat F64.ofUnits
  rw [if_neg h]
  simp only [Int.zero_mul, Int.natAbs_zero, Nat.zero_div, hb, Nat.zero_sub, Nat.pow_zero,
    Nat.mul_one, hr, Nat.zero_mul, hpos, if_false, lt_self_iff_false, Nat.cast_zero]

theorem stod_numeral (ip fp : List Char) (pt : Bool) (v : F64)
    (hip : ∀ c ∈ ip, c.isDigit = true) (hfp : ∀ c ∈ fp, c.isDigit = true)
    (hne : ip ++ fp ≠ []) (hpt : pt = false → fp = [])
    (hv : F64.ofRat (decimalValue (ip ++ fp)) (10 ^ fp.length) = v)
    (hfin : v ≠ F64.nonfinite)
    (hnorm : decimalValue (ip ++ fp) = 0
      ∨ 10 ^ fp.length ≤ decimalValue (ip ++ fp) * 2 ^ 1022) :
    stod (numeral ip fp pt).data = some v := by
  have hall : ∀ l : List Char, (∀ c ∈ l, c.isDigit = true) →
      l.takeWhile Char.isDigit = l ∧ l.dropWhile Char.isDigit = [] := by
    intro l hl
    exact ⟨List.takeWhile_eq_self_iff.mpr hl, List.dropWhile_eq_nil_iff.mpr hl⟩
  have hne' : ¬ (ip = [] ∧ fp = []) := fun h => hne (by simp [h.1, h.2])
  have hkey : ∀ w : F64, F64.ofRat (decimalValue (ip ++ fp)) (10 ^ fp.length) = w →
      w ≠ F64.nonfinite →
      (match w with
        | F64.nonfinite => none
        | F64.finite k =>
          if decimalValue (ip ++ fp) * 2 ^ 1022 < 10 ^ fp.length
              ∧ k * (10 ^ fp.length : Nat) ≠ (decimalValue (ip ++ fp) : Int) * 2 ^ 1074
          then none
          else some (F64.finite k)) = some w := by
    intro w hw hwf
    cases w with
    | nonfinite => exact absurd rfl hwf
    | finite k =>
      show (if _ then none else some (F64.finite k)) = some (F64.finite k)
      rw [if_neg]
      rintro ⟨hlt, hinex⟩
      rcases hnorm with h0 | hle
      · rw [h0, Int.ofNat_zero, ofRat_zero _ (pow_ne_zero _ (by norm_num))] at hw
        injection hw with hk
        apply hinex
        rw [h0, ← hk, Int.zero_mul, Int.ofNat_zero, Int.zero_mul]
      · omega
  have hmatch := hkey v hv hfin
  cases pt with
  | false =>
    have hfp0 : fp = [] := hpt rfl
    subst hfp0
    have hip0 : ip ≠ [] := fun h => hne (by simp [h])
    simp only [List.append_nil] at hmatch hv
    simp only [numeral, Bool.false_eq_true, if_false, List.append_nil, stod, (hall ip hip).1,
      (hall ip hip).2, hip0, false_and, hv]
    exact hmatch
  | true =>
    have htk : (ip ++ '.' :: fp).takeWhile Char.isDigit = ip := by
      rw [List.takeWhile_append_of_pos hip]
      simp [List.takeWhile_cons, show ('.' : Char).isDigit = false from by decide]
    have hdk : (ip ++ '.' :: fp).dropWhile Char.isDigit = '.' :: fp := by
      rw [List.dropWhile_append_of_pos hip]
      simp [List.dropWhile_cons, show ('.' : Char).isDigit = false from by decide]
    simp only [numeral, if_true, stod, htk, hdk, (hall fp hfp).1, hne', if_false, hv]
    exact hmatch

theorem parse_duration_append (n u : String) (c : Char) (t : List Char) (v : F64)
    (h : ∀ d ∈ n.data, d ∈ "0123456789.".data) (hu : u.data = c :: t)
    (hc : c ∉ "0123456789.".data) (hv : stod n.data = some v) :
    parse_duration (n ++ u) =
      if u = "s" ∨ u = "S" then some v
      else if u = "ms" ∨ u = "MS" then some (F64.div v (F64.ofInt 1000))
      else if u = "m" ∨ u = "M" then some (F64.mul v (F64.ofInt 60))
      else some v := by
  have hs : n ++ u = ⟨n.data ++ c :: t⟩ := by
    apply String.ext
    simp [String.data_append, hu]
  have hd : ∀ w : String, (c :: t = w.data) ↔ (u = w) := by
    intro w
    rw [← hu]
    exact ⟨fun e => String.ext e, fun e => by rw [e]⟩
  rw [hs, parse_duration_split n.data c t v h hc hv]
  simp only [hd]

theorem tdiv_units (k : Int) (h0 : 0 ≤ k) :
    Int.tdiv k (2 ^ 1074) = ⌊(k : ℚ) / 2 ^ 1074⌋ := by
  have h := Rat.floor_intCast_div_natCast k (2 ^ 1074)
  simp only [Nat.cast_pow, Nat.cast_ofNat] at h
  rw [Int.tdiv_eq_ediv h0 (by positivity), h]

/-! ## Lemmas on the statistics and the result buffer -/

theorem updateStats_fields (s : Stats) (r : Rslt) :
    (updateStats s r).Total = s.Total + 1
    ∧ (updateStats s r).Success = s.Success + (if r.IsChkSuccess = true then 1 else 0)
    ∧ (updateStats s r).Failures = s.Failures + (if r.IsChkSuccess = true then 0 else 1)
    ∧ (updateStats s r).Errors = s.Errors + (if r.Error ≠ "" then 1 else 0)
    ∧ (updateStats s r).TotalLatency = F64.add s.TotalLatency r.ChkLatency := by
  refine ⟨?_, ?_, ?_, ?_, ?_⟩ <;> simp only [updateStats] <;> split_ifs <;> simp

theorem foldl_updateStats (rs : List Rslt) (s : Stats) :
    (rs.foldl updateStats s).Total = s.Total + rs.length
    ∧ (rs.foldl updateStats s).Success = s.Success + rs.countP (fun r => r.IsChkSuccess)
    ∧ (rs.foldl updateStats s).Failures = s.Failures + rs.countP (fun r => !r.IsChkSuccess)
    ∧ (rs.foldl updateStats s).Errors = s.Errors + rs.countP (fun r => decide (r.Error ≠ ""))
    ∧ (rs.foldl updateStats s).TotalLatency
        = (rs.map Rslt.ChkLatency).foldl F64.add s.TotalLatency := by
  induction rs generalizing s with
  | nil => simp
  | cons r rs ih =>
    obtain ⟨h1, h2, h3, h4, h5⟩ := ih (updateStats s r)
    obtain ⟨u1, u2, u3, u4, u5⟩ := updateStats_fields s r
    simp only [List.foldl_cons, List.map_cons, List.length_cons, List.countP_cons, h1, h2, h3,
      h4, h5, u1, u2, u3, u4, u5]
    refine ⟨?_, ?_, ?_, ?_, trivial⟩
    · push_cast; ring
    · cases r.IsChkSuccess <;> simp
      ring
    · cases r.IsChkSuccess <;> simp
      ring
    · by_cases he : r.Error = "" <;> simp [he]
      ring

theorem countP_success_add_failure (l : List Rslt) :
    (l.countP (fun r => r.IsChkSuccess) : Int) + l.countP (fun r => !r.IsChkSuccess)
      = l.length := by
  induction l with
  | nil => simp
  | cons a l ih =>
    simp only [List.countP_cons, List.length_cons]
    cases a.IsChkSuccess <;> simp <;> omega

theorem foldl_pushRslt (rs buf : List Rslt) (h : buf.length ≤ 1000) :
    rs.foldl pushRslt buf = buf ++ rs.take (1000 - buf.length) := by
  induction rs generalizing buf with
  | nil => simp
  | cons r rs ih =>
    rw [List.foldl_cons]
    by_cases hlt : buf.length < 1000
    · have hp : pushRslt buf r = buf ++ [r] := by simp [pushRslt, hlt]
      rw [hp, ih (buf ++ [r]) (by simp; omega)]
      have hk : 1000 - buf.length = (1000 - (buf ++ [r]).length) + 1 := by simp; omega
      rw [hk, List.take_succ_cons]
      simp
    · have hp : pushRslt buf r = buf := by simp [pushRslt, hlt]
      have h0 : 1000 - buf.length = 0 := by omega
      rw [hp, ih buf h, h0]
      simp

theorem Chk_error_not_success (w : Transfer) (rsr : Rsr)
    (h : (Runner.Chk w rsr).Error ≠ "") : (Runner.Chk w rsr).IsChkSuccess = false := by
  unfold Runner.Chk at h ⊢
  split_ifs at h ⊢ with h1 h2
  · rfl
  · exact absurd rfl h
  · rfl

theorem countP_error_le_failure (rs : List Rslt)
    (h : ∀ r ∈ rs, r.Error ≠ "" → r.IsChkSuccess = false) :
    rs.countP (fun r => decide (r.Error ≠ "")) ≤ rs.countP (fun r => !r.IsChkSuccess) := by
  apply List.countP_mono_left
  intro r hr he
  have := h r hr (by simpa using he)
  simp [this]

/-! ## Lemmas on decimal text -/

theorem digitChar_value (k : Nat) (h : k < 10) : (Nat.digitChar k).toNat - 48 = k := by
  interval_cases k <;> decide

theorem foldl_toDigitsCore (fuel n : Nat) (ds : List Char) (h : n < fuel) :
    (Nat.toDigitsCore 10 fuel n ds).foldl (fun acc c => 10 * acc + (c.toNat - 48)) 0
      = ds.foldl (fun acc c => 10 * acc + (c.toNat - 48)) n := by
  induction fuel generalizing n ds with
  | zero => omega
  | succ fuel ih =>
    have hd : (Nat.digitChar (n % 10)).toNat - 48 = n % 10 :=
      digitChar_value (n % 10) (Nat.mod_lt n (by norm_num))
    simp only [Nat.toDigitsCore]
    split_ifs with h0
    · have hn : n % 10 = n := Nat.mod_eq_of_lt (by omega)
      simp only [List.foldl_cons, Nat.mul_zero, Nat.zero_add, hd]
      rw [hn]
    · rw [ih (n / 10) _ (by omega)]
      simp only [List.foldl_cons, hd]
      congr 1
      omega

/-- The decimal text of a number, read back, is the number. -/
theorem decimalValue_toString (n : Nat) : decimalValue (toString n).data = n := by
  show decimalValue (Nat.toDigits 10 n).asString.data = n
  simp only [List.asString, decimalValue, Nat.toDigits]
  rw [foldl_toDigitsCore (n + 1) n [] (by omega)]
  rfl

theorem rsr_id_injective :
    Function.Injective (fun i : Nat => "rsr-" ++ toString (i + 1)) := by
  intro i j h
  have h' : ("rsr-" ++ toString (i + 1)).data = ("rsr-" ++ toString (j + 1)).data := by
    simp only at h
    rw [h]
  simp only [String.data_append, List.append_cancel_left_eq] at h'
  have hi := decimalValue_toString (i + 1)
  rw [h', decimalValue_toString] at hi
  omega

/-! ## The scheduler -/

theorem get?_split {α : Type} (l : List α) (i : Nat) (t : α) (h : l.get? i = some t) :
    ∃ l1 l2, l = l1 ++ t :: l2 ∧ l1.length = i
      ∧ (∀ t', l.set i t' = l1 ++ t' :: l2) ∧ l.eraseIdx i = l1 ++ l2 := by
  induction l generalizing i with
  | nil => simp at h
  | cons a l ih =>
    cases i with
    | zero =>
      simp only [List.get?_cons_zero, Option.some.injEq] at h
      subst h
      exact ⟨[], l, rfl, rfl, fun _ => rfl, rfl⟩
    | succ i =>
      simp only [List.get?_cons_succ] at h
      obtain ⟨l1, l2, h1, h2, h3, h4⟩ := ih i h
      refine ⟨a :: l1, l2, by rw [h1]; rfl, by simp [h2], fun t' => ?_, ?_⟩
      · simp [List.set_cons_succ, h3]
      · simp [List.eraseIdx_cons_succ, h4]

/-- The five kinds of step, spelled out. -/
theorem step_cases (max : Int) (chk : Rsr → Rslt) (s s' : State) (a : Action)
    (h : step max chk s a = some s') :
    (∃ rsr rest, s.pending = rsr :: rest ∧ s.sem_count < max
        ∧ s' = { s with pending := rest, sem_count := s.sem_count + 1,
                        active_threads := s.active_threads + 1,
                        tasks := s.tasks ++ [Task.started rsr] })
    ∨ (∃ l1 l2 rsr, s.tasks = l1 ++ Task.started rsr :: l2
        ∧ s' = { s with tasks := l1 ++ Task.checked rsr (chk rsr) :: l2 })
    ∨ (∃ l1 l2 rsr result, s.tasks = l1 ++ Task.checked rsr result :: l2
        ∧ s' = { s with rslts := pushRslt s.rslts result,
                        tasks := l1 ++ Task.pushed rsr result :: l2 })
    ∨ (∃ l1 l2 rsr result, s.tasks = l1 ++ Task.pushed rsr result :: l2
        ∧ s' = { s with stats := updateStats s.stats result,
                        tasks := l1 ++ Task.recorded rsr result :: l2 })
    ∨ (∃ l1 l2 rsr result, s.tasks = l1 ++ Task.recorded rsr result :: l2
        ∧ s' = { s with sem_count := s.sem_count - 1,
                        active_threads := s.active_threads - 1,
                        tasks := l1 ++ l2 }) := by
  cases a with
  | launch =>
    left
    simp only [step] at h
    split at h
    · exact absurd h (by simp)
    · rename_i rsr rest hp
      split_ifs at h with hlt
      exact ⟨rsr, rest, hp, hlt, (Option.some.inj h).symm⟩
  | advance i =>
    right
    simp only [step] at h
    split at h
    · exact absurd h (by simp)
    · rename_i rsr hg
      obtain ⟨l1, l2, e, _, hset, _⟩ := get?_split _ _ _ hg
      rw [hset] at h
      exact Or.inl ⟨l1, l2, rsr, e, (Option.some.inj h).symm⟩
    · rename_i rsr result hg
      obtain ⟨l1, l2, e, _, hset, _⟩ := get?_split _ _ _ hg
      rw [hset] at h
      exact Or.inr (Or.inl ⟨l1, l2, rsr, result, e, (Option.some.inj h).symm⟩)
    · rename_i rsr result hg
      obtain ⟨l1, l2, e, _, hset, _⟩ := get?_split _ _ _ hg
      rw [hset] at h
      exact Or.inr (Or.inr (Or.inl ⟨l1, l2, rsr, result, e, (Option.some.inj h).symm⟩))
    · rename_i rsr result hg
      obtain ⟨l1, l2, e, _, _, her⟩ := get?_split _ _ _ hg
      rw [her] at h
      exact Or.inr (Or.inr (Or.inr ⟨l1, l2, rsr, result, e, (Option.some.inj h).symm⟩))

/-- An invariant of the steps carries over to every run. -/
theorem run_induction (max : Int) (chk : Rsr → Rslt) (P : State → Prop)
    (hstep : ∀ s s' a, P s → step max chk s a = some s' → P s')
    (tr : List Action) (s s' : State) (h0 : P s) (h : run max chk tr s = some s') : P s' := by
  induction tr generalizing s with
  | nil =>
    simp only [run, Option.some.injEq] at h
    exact h ▸ h0
  | cons a tr ih =>
    simp only [run] at h
    split at h
    · exact absurd h (by simp)
    · rename_i s1 hs1
      exact ih s1 (hstep s s1 a h0 hs1) h

/-- The slot counter is the number of live threads and stays within `[0, max]`. -/
theorem step_sem_count (max : Int) (chk : Rsr → Rslt) (s s' : State) (a : Action)
    (hinv : s.sem_count = s.tasks.length ∧ s.active_threads = s.tasks.length ∧ s.sem_count ≤ max)
    (h : step max chk s a = some s') :
    s'.sem_count = s'.tasks.length ∧ s'.active_threads = s'.tasks.length
      ∧ s'.sem_count ≤ max := by
  obtain ⟨h1, h2, h3⟩ := hinv
  rcases step_cases max chk s s' a h with
    ⟨rsr, rest, _, hlt, rfl⟩ | ⟨l1, l2, rsr, e, rfl⟩ | ⟨l1, l2, rsr, res, e, rfl⟩
    | ⟨l1, l2, rsr, res, e, rfl⟩ | ⟨l1, l2, rsr, res, e, rfl⟩
  · simp only [List.length_append, List.length_singleton, Nat.cast_add, Nat.cast_one]
    omega
  · rw [e] at h1 h2
    simp only [List.length_append, List.length_cons] at h1 h2 ⊢
    exact ⟨h1, h2, h3⟩
  · rw [e] at h1 h2
    simp only [List.length_append, List.length_cons] at h1 h2 ⊢
    exact ⟨h1, h2, h3⟩
  · rw [e] at h1 h2
    simp only [List.length_append, List.length_cons] at h1 h2 ⊢
    exact ⟨h1, h2, h3⟩
  · rw [e] at h1 h2
    simp only [List.length_append, List.length_cons, Nat.cast_add, Nat.cast_one] at h1 h2 ⊢
    omega

theorem step_stepsLeft (max : Int) (chk : Rsr → Rslt) (s s' : State) (a : Action)
    (h : step max chk s a = some s') : stepsLeft s' + 1 = stepsLeft s := by
  rcases step_cases max chk s s' a h with
    ⟨rsr, rest, hp, hlt, rfl⟩ | ⟨l1, l2, rsr, e, rfl⟩ | ⟨l1, l2, rsr, res, e, rfl⟩
    | ⟨l1, l2, rsr, res, e, rfl⟩ | ⟨l1, l2, rsr, res, e, rfl⟩
  · simp only [stepsLeft, hp, List.length_cons, List.map_append, List.sum_append, List.map_cons,
      List.map_nil, List.sum_cons, List.sum_nil, Task.remaining]
    omega
  all_goals
    simp only [stepsLeft, e, List.map_append, List.sum_append, List.map_cons, List.sum_cons,
      Task.remaining]
    omega

theorem run_stepsLeft (max : Int) (chk : Rsr → Rslt) (tr : List Action) (s s' : State)
    (h : run max chk tr s = some s') : tr.length + stepsLeft s' = stepsLeft s := by
  induction tr generalizing s with
  | nil =>
    simp only [run, Option.some.injEq] at h
    simp [h]
  | cons a tr ih =>
    simp only [run] at h
    split at h
    · exact absurd h (by simp)
    · rename_i s1 hs1
      have := ih s1 h
      have := step_stepsLeft max chk s s1 a hs1
      simp only [List.length_cons]
      omega

theorem returned_iff_stepsLeft (s : State) : returned s = true ↔ stepsLeft s = 0 := by
  obtain ⟨pending, tasks, sc, at_, rs, st⟩ := s
  cases pending with
  | cons p ps => simp [returned, stepsLeft]
  | nil =>
    cases tasks with
    | nil => simp [returned, stepsLeft]
    | cons t ts =>
      have : 0 < t.remaining := by cases t <;> simp [Task.remaining]
      simp [returned, stepsLeft]
      omega

theorem step_ghost (max : Int) (chk : Rsr → Rslt) (rsrs : List Rsr) (s s' : State) (a : Action)
    (hinv : ∃ done : List Rsr,
        s.stats = (done.map chk).foldl updateStats Stats.zero
        ∧ List.Perm (done ++ ((s.tasks.filter fun t => !t.isRecorded).map Task.rsr
            ++ s.pending)) rsrs
        ∧ ∀ r res, (Task.checked r res ∈ s.tasks ∨ Task.pushed r res ∈ s.tasks) → res = chk r)
    (h : step max chk s a = some s') :
    ∃ done : List Rsr,
        s'.stats = (done.map chk).foldl updateStats Stats.zero
        ∧ List.Perm (done ++ ((s'.tasks.filter fun t => !t.isRecorded).map Task.rsr
            ++ s'.pending)) rsrs
        ∧ ∀ r res, (Task.checked r res ∈ s'.tasks ∨ Task.pushed r res ∈ s'.tasks) →
            res = chk r := by
  obtain ⟨done, hst, hperm, hcons⟩ := hinv
  rcases step_cases max chk s s' a h with
    ⟨rsr, rest, hp, hlt, rfl⟩ | ⟨l1, l2, rsr, e, rfl⟩ | ⟨l1, l2, rsr, res, e, rfl⟩
    | ⟨l1, l2, rsr, res, e, rfl⟩ | ⟨l1, l2, rsr, res, e, rfl⟩
  · refine ⟨done, hst, ?_, ?_⟩
    · rw [hp] at hperm
      simpa [List.filter_append, Task.isRecorded, Task.rsr] using hperm
    · intro r res hm
      apply hcons r res
      simpa using hm
  · refine ⟨done, hst, ?_, ?_⟩
    · rw [e] at hperm
      simpa [List.filter_append, List.filter_cons, Task.isRecorded, Task.rsr] using hperm
    · intro r res hm
      rw [e] at hcons
      simp only [List.mem_append, List.mem_cons] at hm hcons
      rcases hm with (h1 | h1 | h1) | (h1 | h1 | h1)
      · exact hcons r res (Or.inl (Or.inl h1))
      · cases h1; rfl
      · exact hcons r res (Or.inl (Or.inr (Or.inr h1)))
      · exact hcons r res (Or.inr (Or.inl h1))
      · cases h1
      · exact hcons r res (Or.inr (Or.inr (Or.inr h1)))
  · refine ⟨done, hst, ?_, ?_⟩
    · rw [e] at hperm
      simpa [List.filter_append, List.filter_cons, Task.isRecorded, Task.rsr] using hperm
    · intro r res' hm
      rw [e] at hcons
      simp only [List.mem_append, List.mem_cons] at hm hcons
      rcases hm with (h1 | h1 | h1) | (h1 | h1 | h1)
      · exact hcons r res' (Or.inl (Or.inl h1))
      · cases h1
      · exact hcons r res' (Or.inl (Or.inr (Or.inr h1)))
      · exact hcons r res' (Or.inr (Or.inl h1))
      · cases h1
        exact hcons _ _ (Or.inl (Or.inr (Or.inl rfl)))
      · exact hcons r res' (Or.inr (Or.inr (Or.inr h1)))
  · have hres : res = chk rsr := by
      apply hcons rsr res
      rw [e]
      simp
    refine ⟨done ++ [rsr], ?_, ?_, ?_⟩
    · simp only [List.map_append, List.map_cons, List.map_nil, List.foldl_append,
        List.foldl_cons, List.foldl_nil, ← hst, hres]
    · rw [e] at hperm
      refine List.Perm.trans ?_ hperm
      simp only [List.filter_append, List.filter_cons, Task.isRecorded, Task.rsr,
        Bool.not_true, Bool.not_false, Bool.false_eq_true, if_false, if_true, List.map_append,
        List.map_cons, List.append_assoc, List.singleton_append]
      exact List.Perm.append_left _ List.perm_middle.symm
    · intro r res' hm
      rw [e] at hcons
      simp only [List.mem_append, List.mem_cons] at hm hcons
      rcases hm with (h1 | h1 | h1) | (h1 | h1 | h1)
      · exact hcons r res' (Or.inl (Or.inl h1))
      · cases h1
      · exact hcons r res' (Or.inl (Or.inr (Or.inr h1)))
      · exact hcons r res' (Or.inr (Or.inl h1))
      · cases h1
      · exact hcons r res' (Or.inr (Or.inr (Or.inr h1)))
  · refine ⟨done, hst, ?_, ?_⟩
    · rw [e] at hperm
      simpa [List.filter_append, List.filter_cons, Task.isRecorded, Task.rsr] using hperm
    · intro r res' hm
      rw [e] at hcons
      simp only [List.mem_append, List.mem_cons] at hm hcons
      rcases hm with (h1 | h1) | (h1 | h1)
      · exact hcons r res' (Or.inl (Or.inl h1))
      · exact hcons r res' (Or.inl (Or.inr (Or.inr h1)))
      · exact hcons r res' (Or.inr (Or.inl h1))
      · exact hcons r res' (Or.inr (Or.inr (Or.inr h1)))

/-- A call that has not returned can always take a step: the scheduler does not deadlock. -/
theorem step_progress (max : Int) (hmax : 1 ≤ max) (chk : Rsr → Rslt) (s : State)
    (hsem : s.sem_count = s.tasks.length) (hret : returned s = false) :
    ∃ a s', step max chk s a = some s' := by
  obtain ⟨pending, tasks, sc, at_, rs, st⟩ := s
  cases tasks with
  | cons t ts =>
    refine ⟨Action.advance 0, ?_⟩
    cases t <;> simp [step]
  | nil =>
    cases pending with
    | nil => simp [returned] at hret
    | cons p ps =>
      refine ⟨Action.launch, ?_⟩
      simp only [List.length_nil, Nat.cast_zero] at hsem
      have : sc < max := by omega
      simp [step, this]

theorem run_append (max : Int) (chk : Rsr → Rslt) (tr1 tr2 : List Action) (s s1 : State)
    (h : run max chk tr1 s = some s1) :
    run max chk (tr1 ++ tr2) s = run max chk tr2 s1 := by
  induction tr1 generalizing s with
  | nil =>
    simp only [run, Option.some.injEq] at h
    simp [h]
  | cons a tr ih =>
    simp only [run, List.cons_append] at h ⊢
    split at h
    · exact absurd h (by simp)
    · rename_i s2 hs2
      exact ih s2 h

/-- From every state that satisfies the slot invariant the call can run to its return. -/
theorem run_to_return (max : Int) (hmax : 1 ≤ max) (chk : Rsr → Rslt) (n : Nat) (s : State)
    (hn : stepsLeft s = n)
    (hinv : s.sem_count = s.tasks.length ∧ s.active_threads = s.tasks.length
      ∧ s.sem_count ≤ max) :
    ∃ tr s', run max chk tr s = some s' ∧ returned s' = true := by
  induction n generalizing s with
  | zero => exact ⟨[], s, rfl, (returned_iff_stepsLeft s).mpr hn⟩
  | succ n ih =>
    have hret : returned s = false := by
      cases hr : returned s
      · rfl
      · have := (returned_iff_stepsLeft s).mp hr
        omega
    obtain ⟨a, s1, hs1⟩ := step_progress max hmax chk s hinv.1 hret
    have hleft := step_stepsLeft max chk s s1 a hs1
    obtain ⟨tr, s', hrun, hr⟩ :=
      ih s1 (by omega) (step_sem_count max chk s s1 a hinv hs1)
    refine ⟨a :: tr, s', ?_, hr⟩
    simp only [run, hs1]
    exact hrun

theorem foldl_updateStats_total (rs : List Rslt) :
    (rs.foldl updateStats Stats.zero).Total
      = (rs.foldl updateStats Stats.zero).Success
        + (rs.foldl updateStats Stats.zero).Failures := by
  obtain ⟨h1, h2, h3, _, _⟩ := foldl_updateStats rs Stats.zero
  have hsum := countP_success_add_failure rs
  rw [h1, h2, h3]
  simp only [Stats.zero, zero_add]
  exact hsum.symm

theorem foldl_updateStats_errors (rs : List Rslt)
    (h : ∀ r ∈ rs, r.Error ≠ "" → r.IsChkSuccess = false) :
    (rs.foldl updateStats Stats.zero).Errors ≤ (rs.foldl updateStats Stats.zero).Failures
    ∧ (rs.foldl updateStats Stats.zero).Failures ≤ (rs.foldl updateStats Stats.zero).Total := by
  obtain ⟨h1, _, h3, h4, _⟩ := foldl_updateStats rs Stats.zero
  rw [h1, h3, h4]
  simp only [Stats.zero, zero_add]
  exact ⟨by exact_mod_cast countP_error_le_failure rs h,
    by exact_mod_cast List.countP_le_length _⟩

/-- The statistics of a reachable state are those of the outcomes recorded so far. -/
theorem run_stats_fold (max : Int) (chk : Rsr → Rslt) (rsrs : List Rsr) (tr : List Action)
    (s : State) (h : run max chk tr (init rsrs) = some s) :
    ∃ done : List Rsr, s.stats = (done.map chk).foldl updateStats Stats.zero := by
  obtain ⟨done, hst, _, _⟩ := run_induction max chk
    (fun s => ∃ done : List Rsr,
        s.stats = (done.map chk).foldl updateStats Stats.zero
        ∧ List.Perm (done ++ ((s.tasks.filter fun t => !t.isRecorded).map Task.rsr
            ++ s.pending)) rsrs
        ∧ ∀ r res, (Task.checked r res ∈ s.tasks ∨ Task.pushed r res ∈ s.tasks) → res = chk r)
    (fun s s' a hs hstep => step_ghost max chk rsrs s s' a hs hstep) tr (init rsrs) s
    ⟨[], rfl, by simp [init], by simp [init]⟩ h
  exact ⟨done, hst⟩

/-- The queue of a reachable state holds at most 1000 outcomes. -/
theorem run_rslts_length (max : Int) (chk : Rsr → Rslt) (rsrs : List Rsr) (tr : List Action)
    (s : State) (h : run max chk tr (init rsrs) = some s) : s.rslts.length ≤ 1000 := by
  refine run_induction max chk (fun s => s.rslts.length ≤ 1000) ?_ tr (init rsrs) s
    (by simp [init]) h
  intro s s' a hs hstep
  rcases step_cases max chk s s' a hstep with
    ⟨rsr, rest, _, _, rfl⟩ | ⟨l1, l2, rsr, _, rfl⟩ | ⟨l1, l2, rsr, res, _, rfl⟩
    | ⟨l1, l2, rsr, res, _, rfl⟩ | ⟨l1, l2, rsr, res, _, rfl⟩
  · exact hs
  · exact hs
  · show (pushRslt s.rslts res).length ≤ 1000
    unfold pushRslt
    split_ifs with hlt
    · simp only [List.length_append, List.length_singleton]
      omega
    · exact hs
  · exact hs
  · exact hs

/-! ## The claims -/

/-- C1. After recording any sequence of outcomes from the zero statistics,
`Total = Success + Failures` (also in the snapshot `copy` returns) and `Total` is the number
of outcomes recorded; one update adds one to `Total` and to exactly one of `Success` and
`Failures`; and the equation holds in every state a run of `CheckRsr` reaches. -/
theorem updateStats_total_eq (rs : List Rslt) :
    (rs.foldl updateStats Stats.zero).Total
        = (rs.foldl updateStats Stats.zero).Success + (rs.foldl updateStats Stats.zero).Failures
    ∧ (rs.foldl updateStats Stats.zero).copy.Total
        = (rs.foldl updateStats Stats.zero).copy.Success
          + (rs.foldl updateStats Stats.zero).copy.Failures
    ∧ (rs.foldl updateStats Stats.zero).Total = rs.length
    ∧ (∀ (s : Stats) (r : Rslt),
        (updateStats s r).Total = s.Total + 1
        ∧ (((updateStats s r).Success = s.Success + 1 ∧ (updateStats s r).Failures = s.Failures
              ∧ r.IsChkSuccess = true)
          ∨ ((updateStats s r).Success = s.Success ∧ (updateStats s r).Failures = s.Failures + 1
              ∧ r.IsChkSuccess = false)))
    ∧ (∀ (max : Int) (chk : Rsr → Rslt) (rsrs : List Rsr) (tr : List Action) (s : State),
        run max chk tr (init rsrs) = some s →
          s.stats.Total = s.stats.Success + s.stats.Failures
          ∧ s.stats.copy.Total = s.stats.copy.Success + s.stats.copy.Failures) := by
  have hT := foldl_updateStats_total rs
  obtain ⟨h1, _, _, _, _⟩ := foldl_updateStats rs Stats.zero
  refine ⟨hT, hT, by rw [h1]; simp [Stats.zero], ?_, ?_⟩
  · intro s r
    cases hs : r.IsChkSuccess
    · obtain ⟨u1, u2, u3, _, _⟩ := updateStats_fields s r
      rw [hs] at u2 u3
      exact ⟨u1, Or.inr ⟨by simpa using u2, by simpa using u3, rfl⟩⟩
    · obtain ⟨u1, u2, u3, _, _⟩ := updateStats_fields s r
      rw [hs] at u2 u3
      exact ⟨u1, Or.inl ⟨by simpa using u2, by simpa using u3, rfl⟩⟩
  · intro max chk rsrs tr s hrun
    obtain ⟨done, hst⟩ := run_stats_fold max chk rsrs tr s hrun
    have := foldl_updateStats_total (done.map chk)
    rw [← hst] at this
    exact ⟨this, this⟩

/-- C2. For a positive `max`, in every state a run of `CheckRsr` reaches, `sem_count` is the
number of threads admitted and not yet released and `0 <= sem_count <= max`; so at most `max`
threads are inside `Chk` at once, and an admission happens only below `max`. -/
theorem sem_count_bounded (max : Int) (hmax : 0 < max) (chk : Rsr → Rslt) (rsrs : List Rsr)
    (tr : List Action) (s : State) (h : run max chk tr (init rsrs) = some s) :
    0 ≤ s.sem_count ∧ s.sem_count ≤ max
    ∧ s.sem_count = s.tasks.length
    ∧ s.active_threads = s.sem_count
    ∧ ((s.tasks.countP Task.inChk : Nat) : Int) ≤ max
    ∧ (∀ s', step max chk s Action.launch = some s' →
        s.sem_count < max ∧ s'.sem_count = s.sem_count + 1)
    ∧ (∀ i s', step max chk s (Action.advance i) = some s' →
        s'.sem_count = s.sem_count ∨ s'.sem_count = s.sem_count - 1) := by
  have hinv := run_induction max chk
    (fun s => s.sem_count = s.tasks.length ∧ s.active_threads = s.tasks.length
      ∧ s.sem_count ≤ max)
    (fun s s' a hs hstep => step_sem_count max chk s s' a hs hstep) tr (init rsrs) s
    ⟨rfl, rfl, by show (0 : Int) ≤ max; omega⟩ h
  obtain ⟨h1, h2, h3⟩ := hinv
  have hc : s.tasks.countP Task.inChk ≤ s.tasks.length := List.countP_le_length _
  refine ⟨by omega, h3, h1, by omega, by omega, ?_, ?_⟩
  · intro s' hs'
    rcases step_cases max chk s s' Action.launch hs' with
      ⟨rsr, rest, _, hlt, rfl⟩ | hrest
    · exact ⟨hlt, rfl⟩
    · simp only [step] at hs'
      split at hs'
      · exact absurd hs' (by simp)
      · split_ifs at hs' with hlt
        exact ⟨hlt, by rw [← Option.some.inj hs']⟩
  · intro i s' hs'
    simp only [step] at hs'
    split at hs'
    · exact absurd hs' (by simp)
    · left; rw [← Option.some.inj hs']
    · left; rw [← Option.some.inj hs']
    · left; rw [← Option.some.inj hs']
    · right; rw [← Option.some.inj hs']

/-- Witness of `sem_count_bounded`: with three slots and four targets, three admissions fill
the slots and a fourth is not enabled. -/
theorem sem_count_bounded_witness :
    (0 : Int) < 3
    ∧ ∃ s, run 3 (Runner.Chk healthy10ms) [Action.launch, Action.launch, Action.launch]
          (init (targets 4)) = some s
        ∧ s.sem_count = 3 ∧ s.tasks.length = 3
        ∧ step 3 (Runner.Chk healthy10ms) s Action.launch = none := by
  have hsome : ((run 3 (Runner.Chk healthy10ms) [Action.launch, Action.launch, Action.launch]
      (init (targets 4))).bind fun s =>
        if s.sem_count = 3 ∧ step 3 (Runner.Chk healthy10ms) s Action.launch = none
        then some s else none).isSome = true := by decide
  obtain ⟨s', hs'⟩ := Option.isSome_iff_exists.mp hsome
  obtain ⟨s, hs, hif⟩ := Option.bind_eq_some.mp hs'
  split_ifs at hif with hc
  obtain ⟨_, _, h3, _⟩ := sem_count_bounded 3 (by decide) (Runner.Chk healthy10ms) (targets 4)
    [Action.launch, Action.launch, Action.launch] s hs
  refine ⟨by decide, s, hs, hc.1, ?_, hc.2⟩
  have := hc.1
  omega

/-- C3, as amended. For `max >= 1`, every run of `CheckRsr` on the targets `rsrs` takes at
most `5 * N` steps, never deadlocks and can always be continued to the return, which comes
after exactly `5 * N` steps. At the return `Total = N`, `Success` is the number of targets
whose outcome is a success, `Failures = N - Success`, `Errors` is the number of outcomes with
a non-empty error, whatever the order of completion; `TotalLatency` is the latencies of the
outcomes added up with the `+=` of `double` in the order in which the threads recorded them. -/
theorem CheckRsr_completes (max : Int) (hmax : 1 ≤ max) (chk : Rsr → Rslt) (rsrs : List Rsr)
    (tr : List Action) (s : State) (h : run max chk tr (init rsrs) = some s) :
    tr.length + stepsLeft s = 5 * rsrs.length
    ∧ (returned s = true ↔ tr.length = 5 * rsrs.length)
    ∧ (returned s = false → ∃ a s', step max chk s a = some s')
    ∧ (∃ tr' s', run max chk (tr ++ tr') (init rsrs) = some s' ∧ returned s' = true)
    ∧ (returned s = true →
        s.stats.Total = rsrs.length
        ∧ s.stats.Success = rsrs.countP (fun r => (chk r).IsChkSuccess)
        ∧ s.stats.Failures = rsrs.length - rsrs.countP (fun r => (chk r).IsChkSuccess)
        ∧ s.stats.Errors = rsrs.countP (fun r => decide ((chk r).Error ≠ ""))
        ∧ ∃ order : List Rsr, order.Perm rsrs
            ∧ s.stats.TotalLatency
                = (order.map fun r => (chk r).ChkLatency).foldl F64.add (F64.finite 0)) := by
  have hsem := run_induction max chk
    (fun s => s.sem_count = s.tasks.length ∧ s.active_threads = s.tasks.length
      ∧ s.sem_count ≤ max)
    (fun s s' a hs hstep => step_sem_count max chk s s' a hs hstep) tr (init rsrs) s
    ⟨rfl, rfl, by show (0 : Int) ≤ max; omega⟩ h
  have hghost := run_induction max chk
    (fun s => ∃ done : List Rsr,
        s.stats = (done.map chk).foldl updateStats Stats.zero
        ∧ List.Perm (done ++ ((s.tasks.filter fun t => !t.isRecorded).map Task.rsr
            ++ s.pending)) rsrs
        ∧ ∀ r res, (Task.checked r res ∈ s.tasks ∨ Task.pushed r res ∈ s.tasks) → res = chk r)
    (fun s s' a hs hstep => step_ghost max chk rsrs s s' a hs hstep) tr (init rsrs) s
    ⟨[], rfl, by simp [init], by simp [init]⟩ h
  have hlen := run_stepsLeft max chk tr (init rsrs) s h
  have hinit : stepsLeft (init rsrs) = 5 * rsrs.length := by simp [stepsLeft, init]
  rw [hinit] at hlen
  have hiff : returned s = true ↔ tr.length = 5 * rsrs.length := by
    rw [returned_iff_stepsLeft]
    omega
  refine ⟨hlen, hiff, fun hret => step_progress max hmax chk s hsem.1 hret, ?_, ?_⟩
  · obtain ⟨tr', s', hrun, hret⟩ := run_to_return max hmax chk (stepsLeft s) s rfl hsem
    exact ⟨tr', s', by rw [run_append max chk tr tr' (init rsrs) s h]; exact hrun, hret⟩
  · intro hret
    obtain ⟨done, hst, hperm, _⟩ := hghost
    have hp : s.pending = [] := by
      simp only [returned, Bool.and_eq_true, List.isEmpty_iff] at hret
      exact hret.1
    have ht : s.tasks = [] := by
      simp only [returned, Bool.and_eq_true, List.isEmpty_iff] at hret
      exact hret.2
    rw [hp, ht] at hperm
    simp only [List.filter_nil, List.map_nil, List.append_nil] at hperm
    obtain ⟨f1, f2, f3, f4, f5⟩ := foldl_updateStats (done.map chk) Stats.zero
    rw [← hst] at f1 f2 f3 f4 f5
    simp only [Stats.zero, zero_add, List.length_map, List.countP_map, List.map_map] at f1 f2 f3 f4 f5
    have c1 := hperm.length_eq
    have c2 := hperm.countP_eq (fun r => (chk r).IsChkSuccess)
    have c3 := hperm.countP_eq (fun r => !(chk r).IsChkSuccess)
    have c4 := hperm.countP_eq (fun r => decide ((chk r).Error ≠ ""))
    have hsum := countP_success_add_failure (rsrs.map chk)
    simp only [List.countP_map, List.length_map] at hsum
    refine ⟨by rw [f1, c1], ?_, ?_, ?_, done, hperm, f5⟩
    · rw [f2]
      exact_mod_cast c2
    · rw [f3]
      have : (List.countP ((fun r => !r.IsChkSuccess) ∘ chk) done : Int)
          = List.countP ((fun r => !r.IsChkSuccess) ∘ chk) rsrs := by exact_mod_cast c3
      rw [this]
      have hsum' : (List.countP ((fun r => r.IsChkSuccess) ∘ chk) rsrs : Int)
          = rsrs.countP (fun r => (chk r).IsChkSuccess) := rfl
      omega
    · rw [f4]
      exact_mod_cast c4

/-- Witness of `CheckRsr_completes`. Scenario 1: ten targets, three slots, a server that
always answers `200` after 10 ms; the run returns with `Total = 10`, `Success = 10`,
`Failures = 0`, `Errors = 0`. Scenario 2: five targets, five slots, answers alternating
between `200`, `404` and a timeout; the run returns with `Total = 5`, `Success = 2`,
`Failures = 3`, `Errors = 1`. -/
theorem CheckRsr_completes_witness :
    ((1 : Int) ≤ 3 ∧ (1 : Int) ≤ 5)
    ∧ GenerateRsrs "http://localhost:8080" 10 = some (targets 10)
    ∧ GenerateRsrs "http://localhost:8080" 5 = some (targets 5)
    ∧ (∃ s, run 3 (Runner.Chk healthy10ms) schedule10 (init (targets 10)) = some s
        ∧ returned s = true
        ∧ s.stats.Total = 10 ∧ s.stats.Success = 10 ∧ s.stats.Failures = 0
        ∧ s.stats.Errors = 0)
    ∧ (∃ s, run 5 (fun r => Runner.Chk (alternating r) r) schedule5 (init (targets 5)) = some s
        ∧ returned s = true
        ∧ s.stats.Total = 5 ∧ s.stats.Success = 2 ∧ s.stats.Failures = 3
        ∧ s.stats.Errors = 1) := by
  refine ⟨⟨by decide, by decide⟩, by decide, by decide, ?_, ?_⟩
  · have hsome :
        (run 3 (Runner.Chk healthy10ms) schedule10 (init (targets 10))).isSome = true := by
      decide!
    obtain ⟨s, hs⟩ := Option.isSome_iff_exists.mp hsome
    obtain ⟨_, h2, _, _, h5⟩ :=
      CheckRsr_completes 3 (by decide) (Runner.Chk healthy10ms) (targets 10) schedule10 s hs
    have hret : returned s = true := h2.mpr (by decide)
    obtain ⟨t1, t2, t3, t4, _⟩ := h5 hret
    have hc : (targets 10).countP (fun r => (Runner.Chk healthy10ms r).IsChkSuccess) = 10 := by
      decide
    have he : (targets 10).countP
        (fun r => decide ((Runner.Chk healthy10ms r).Error ≠ "")) = 0 := by
      decide
    have hl : (targets 10).length = 10 := by decide
    rw [hl, hc] at t3
    rw [hl] at t1
    rw [hc] at t2
    rw [he] at t4
    exact ⟨s, hs, hret, by exact_mod_cast t1, by exact_mod_cast t2, by simpa using t3,
      by exact_mod_cast t4⟩
  · have hsome : (run 5 (fun r => Runner.Chk (alternating r) r) schedule5
        (init (targets 5))).isSome = true := by
      decide!
    obtain ⟨s, hs⟩ := Option.isSome_iff_exists.mp hsome
    obtain ⟨_, h2, _, _, h5⟩ :=
      CheckRsr_completes 5 (by decide) (fun r => Runner.Chk (alternating r) r) (targets 5)
        schedule5 s hs
    have hret : returned s = true := h2.mpr (by decide)
    obtain ⟨t1, t2, t3, t4, _⟩ := h5 hret
    have hc : (targets 5).countP
        (fun r => (Runner.Chk (alternating r) r).IsChkSuccess) = 2 := by
      decide
    have he : (targets 5).countP
        (fun r => decide ((Runner.Chk (alternating r) r).Error ≠ "")) = 1 := by
      decide
    have hl : (targets 5).length = 5 := by decide
    rw [hl, hc] at t3
    rw [hl] at t1
    rw [hc] at t2
    rw [he] at t4
    exact ⟨s, hs, hret, by exact_mod_cast t1, by exact_mod_cast t2, by simpa using t3,
      by exact_mod_cast t4⟩

/-- C3 as stated fails for `TotalLatency`. Three targets answer after 100 ms, 200 ms and
300 ms; both schedules run the call to its return with `Total = 3`; when the threads finish
oldest first the latencies add up to the `double` 0.6000000000000001 s, youngest first to
0.6 s. The sum depends on the order of completion. -/
theorem CheckRsr_latency_order_counterexample :
    ((run 3 (fun r => Runner.Chk (slowerByTarget r) r) oldestFirst (init (targets 3))).map
        fun s => (returned s, s.stats.Total, s.stats.TotalLatency))
      = some (true, 3, F64.ofRat 6000000000000001 10000000000000000)
    ∧ ((run 3 (fun r => Runner.Chk (slowerByTarget r) r) youngestFirst (init (targets 3))).map
        fun s => (returned s, s.stats.Total, s.stats.TotalLatency))
      = some (true, 3, F64.ofRat 6 10)
    ∧ F64.ofRat 6000000000000001 10000000000000000 ≠ F64.ofRat 6 10
    ∧ (targets 3).map (fun r => (Runner.Chk (slowerByTarget r) r).ChkLatency)
        = [F64.ofRat 1 10, F64.ofRat 2 10, F64.ofRat 3 10] := by
  refine ⟨?_, ?_, ?_, ?_⟩ <;> decide!

/-- C4. Pushing the outcomes `rs` one after the other into the empty queue leaves the first
`min n 1000` of them, in push order; a push on a queue of 1000 entries changes nothing (and
is total: nothing is raised), a push never takes a queue of at most 1000 entries beyond 1000,
and the queue of every state a run of `CheckRsr` reaches holds at most 1000 entries. -/
theorem pushRslt_saturates (rs : List Rslt) :
    rs.foldl pushRslt [] = rs.take 1000
    ∧ (rs.foldl pushRslt []).length = min rs.length 1000
    ∧ (∀ (buf : List Rslt) (r : Rslt), buf.length = 1000 → pushRslt buf r = buf)
    ∧ (∀ (buf : List Rslt) (r : Rslt), buf.length < 1000 → pushRslt buf r = buf ++ [r])
    ∧ (∀ (buf : List Rslt) (r : Rslt), buf.length ≤ 1000 → (pushRslt buf r).length ≤ 1000)
    ∧ (∀ (max : Int) (chk : Rsr → Rslt) (rsrs : List Rsr) (tr : List Action) (s : State),
        run max chk tr (init rsrs) = some s → s.rslts.length ≤ 1000) := by
  have h := foldl_pushRslt rs [] (by simp)
  simp only [List.nil_append, List.length_nil, Nat.sub_zero] at h
  refine ⟨h, ?_, ?_, ?_, ?_, run_rslts_length⟩
  · rw [h, List.length_take, Nat.min_comm]
  · intro buf r hb
    simp [pushRslt, hb]
  · intro buf r hb
    simp [pushRslt, hb]
  · intro buf r hb
    unfold pushRslt
    split_ifs with hlt
    · simp; omega
    · exact hb

/-- Witness of `pushRslt_saturates`: after 1001 pushes the queue holds exactly 1000 entries,
and the push on the full queue changed nothing. -/
theorem pushRslt_saturates_witness :
    ((List.replicate 1001 (Runner.Chk healthy10ms
        { ID := "rsr-1", Dest := "http://localhost:8080/health" })).foldl pushRslt []).length
      = 1000
    ∧ pushRslt (List.replicate 1000 (Runner.Chk healthy10ms
        { ID := "rsr-1", Dest := "http://localhost:8080/health" }))
        (Runner.Chk notFound10ms { ID := "rsr-2", Dest := "http://localhost:8080/health" })
      = List.replicate 1000 (Runner.Chk healthy10ms
        { ID := "rsr-1", Dest := "http://localhost:8080/health" }) :=
  ⟨(pushRslt_saturates _).2.1.trans (by rw [List.length_replicate]; decide),
   (pushRslt_saturates []).2.2.1 _ _ (by rw [List.length_replicate])⟩

/-- C5, as amended. For the numeral `n` (digits `ip`, and after an optional point the digits
`fp`, with at least one digit) whose value is `0` or at least `2^-1022` and whose nearest
`double` is the finite `v`: the empty string gives 5 s, `n` and `n ++ "s"` give `v` s,
`n ++ "ms"` gives `v / 1000.0` s, `n ++ "m"` gives `v * 60.0` s, `n ++ "M"` and `n ++ "MS"` are
minutes and milliseconds too, and every other suffix that starts outside `0123456789.` and is
not the mixed-case `Ms` or `mS` gives `v` s. -/
theorem parse_duration_values (ip fp : List Char) (pt : Bool) (v : F64)
    (hip : ∀ c ∈ ip, c.isDigit = true) (hfp : ∀ c ∈ fp, c.isDigit = true)
    (hne : ip ++ fp ≠ []) (hpt : pt = false → fp = [])
    (hv : F64.ofRat (decimalValue (ip ++ fp)) (10 ^ fp.length) = v)
    (hfin : v ≠ F64.nonfinite)
    (hnorm : decimalValue (ip ++ fp) = 0
      ∨ 10 ^ fp.length ≤ decimalValue (ip ++ fp) * 2 ^ 1022) :
    parse_duration "" = some (F64.ofInt 5)
    ∧ parse_duration (numeral ip fp pt) = some v
    ∧ parse_duration (numeral ip fp pt ++ "s") = some v
    ∧ parse_duration (numeral ip fp pt ++ "ms") = some (F64.div v (F64.ofInt 1000))
    ∧ parse_duration (numeral ip fp pt ++ "m") = some (F64.mul v (F64.ofInt 60))
    ∧ parse_duration (numeral ip fp pt ++ "MS") = some (F64.div v (F64.ofInt 1000))
    ∧ parse_duration (numeral ip fp pt ++ "M") = some (F64.mul v (F64.ofInt 60))
    ∧ ∀ (u : String) (c : Char) (t : List Char), u.data = c :: t → c ∉ "0123456789.".data →
        u ≠ "s" → u ≠ "ms" → u ≠ "m" → u ≠ "MS" → u ≠ "M" → u ≠ "Ms" → u ≠ "mS" →
        parse_duration (numeral ip fp pt ++ u) = some v := by
  have hch := numeral_chars ip fp pt hip hfp
  have hst := stod_numeral ip fp pt v hip hfp hne hpt hv hfin hnorm
  have hnn : (numeral ip fp pt).data ≠ [] := by
    intro h
    rw [h] at hst
    simp [stod] at hst
  refine ⟨by decide!, ?_, ?_, ?_, ?_, ?_, ?_, ?_⟩
  · have := parse_duration_bare (numeral ip fp pt).data hch hnn
    rw [← hst, ← this]
  · rw [parse_duration_append _ "s" 's' [] v hch rfl (by decide) hst]
    simp
  · rw [parse_duration_append _ "ms" 'm' ['s'] v hch rfl (by decide) hst]
    rw [if_neg (by decide), if_pos (by decide)]
  · rw [parse_duration_append _ "m" 'm' [] v hch rfl (by decide) hst]
    rw [if_neg (by decide), if_neg (by decide), if_pos (by decide)]
  · rw [parse_duration_append _ "MS" 'M' ['S'] v hch rfl (by decide) hst]
    rw [if_neg (by decide), if_pos (by decide)]
  · rw [parse_duration_append _ "M" 'M' [] v hch rfl (by decide) hst]
    rw [if_neg (by decide), if_neg (by decide), if_pos (by decide)]
  · intro u c t hu hc h1 h2 h3 h4 h5 _ _
    rw [parse_duration_append _ u c t v hch hu hc hst]
    by_cases hS : u = "S"
    · simp [hS]
    · simp [h1, h2, h3, h4, h5, hS]

/-- Witness of `parse_duration_values` at the numerals `500`, `2` and `3`: `"500ms"` is
0.5 s, `"2m"` is 120 s, `"3"` is 3 s, `""` is 5 s. -/
theorem parse_duration_values_witness :
    (parse_duration "500ms" = some (F64.ofRat 1 2)
      ∧ parse_duration "2m" = some (F64.ofInt 120)
      ∧ parse_duration "3" = some (F64.ofInt 3)
      ∧ parse_duration "" = some (F64.ofInt 5))
    ∧ F64.ofRat 1 2 = F64.finite (2 ^ 1073) ∧ F64.ofInt 120 = F64.finite (120 * 2 ^ 1074) :=
  ⟨⟨(parse_duration_values "500".data [] false (F64.ofInt 500) (by decide) (by decide)
        (by decide) (fun _ => rfl) (by decide!) (by decide!) (by decide!)).2.2.2.1.trans (by decide!),
    (parse_duration_values "2".data [] false (F64.ofInt 2) (by decide) (by decide)
        (by decide) (fun _ => rfl) (by decide!) (by decide!) (by decide!)).2.2.2.2.1.trans (by decide!),
    (parse_duration_values "3".data [] false (F64.ofInt 3) (by decide) (by decide)
        (by decide) (fun _ => rfl) (by decide!) (by decide!) (by decide!)).2.1,
    (parse_duration_values "3".data [] false (F64.ofInt 3) (by decide) (by decide)
        (by decide) (fun _ => rfl) (by decide!) (by decide!) (by decide!)).1⟩,
   by decide!, by decide!⟩

/-- C5 as stated fails. The suffix `"M"` is none of `"s"`, `"ms"`, `"m"` and starts outside
`0123456789.`, yet `"2M"` is 120 s where `"2"` is 2 s; and a numeral of 400 digits denotes a
number that `std::stod` refuses with `std::out_of_range`. -/
theorem parse_duration_other_suffix_counterexample :
    ("M" ≠ "s" ∧ "M" ≠ "ms" ∧ "M" ≠ "m" ∧ 'M' ∉ "0123456789.".data)
    ∧ parse_duration "2" = some (F64.ofInt 2)
    ∧ parse_duration ("2" ++ "M") = some (F64.ofInt 120)
    ∧ F64.ofInt 120 ≠ F64.ofInt 2
    ∧ parse_duration ⟨List.replicate 400 '9'⟩ = none := by
  refine ⟨by decide, ?_, ?_, ?_, ?_⟩ <;> decide!

/-- C6 fails on the code: the mixed-case unit of `"500Ms"` and `"500mS"` is not recognised and
the value is read as 500 s, where `"500ms"` and `"500MS"` are 0.5 s. -/
theorem parse_duration_mixed_case :
    parse_duration "500ms" = some (F64.ofRat 1 2)
    ∧ parse_duration "500MS" = some (F64.ofRat 1 2)
    ∧ parse_duration "500Ms" = some (F64.ofInt 500)
    ∧ parse_duration "500mS" = some (F64.ofInt 500)
    ∧ F64.ofInt 500 ≠ F64.ofRat 1 2 := by
  refine ⟨?_, ?_, ?_, ?_, ?_⟩ <;> decide!

/-- C7. `Chk` reports success exactly when a handle was created, the transfer returned
`CURLE_OK` and the status is in `[200, 400)`. A failed transfer is a failure whose error is
the description libcurl gives, counted in `Failures`, and in `Errors` when that description is
not empty; a completed transfer with another status is a failure with an empty error, counted
in `Failures` only; without a handle the error is `"Failed to create curl handle"`. -/
theorem Chk_classification (w : Transfer) (rsr : Rsr) :
    ((Runner.Chk w rsr).IsChkSuccess = true ↔
        (w.handle = true ∧ w.res = CURLE_OK ∧ 200 ≤ w.response_code ∧ w.response_code < 400))
    ∧ (w.handle = true → w.res ≠ CURLE_OK →
        (Runner.Chk w rsr).IsChkSuccess = false ∧ (Runner.Chk w rsr).Error = w.strerror
        ∧ ∀ s : Stats, (updateStats s (Runner.Chk w rsr)).Failures = s.Failures + 1
            ∧ (updateStats s (Runner.Chk w rsr)).Success = s.Success
            ∧ (w.strerror ≠ "" → (updateStats s (Runner.Chk w rsr)).Errors = s.Errors + 1))
    ∧ (w.handle = true → w.res = CURLE_OK → ¬(200 ≤ w.response_code ∧ w.response_code < 400) →
        (Runner.Chk w rsr).IsChkSuccess = false ∧ (Runner.Chk w rsr).Error = ""
        ∧ ∀ s : Stats, (updateStats s (Runner.Chk w rsr)).Failures = s.Failures + 1
            ∧ (updateStats s (Runner.Chk w rsr)).Success = s.Success
            ∧ (updateStats s (Runner.Chk w rsr)).Errors = s.Errors)
    ∧ (w.handle = false →
        (Runner.Chk w rsr).IsChkSuccess = false
        ∧ (Runner.Chk w rsr).Error = "Failed to create curl handle"
        ∧ ∀ s : Stats, (updateStats s (Runner.Chk w rsr)).Failures = s.Failures + 1
            ∧ (updateStats s (Runner.Chk w rsr)).Errors = s.Errors + 1)
    ∧ (Runner.Chk w rsr).Rsr = rsr := by
  refine ⟨?_, ?_, ?_, ?_, ?_⟩
  · cases hh : w.handle
    · simp [Runner.Chk, hh]
    · by_cases hr : w.res = CURLE_OK
      · simp [Runner.Chk, hh, hr]
      · simp [Runner.Chk, hh, hr]
  · intro hh hr
    have e1 : (Runner.Chk w rsr).IsChkSuccess = false := by simp [Runner.Chk, hh, hr]
    have e2 : (Runner.Chk w rsr).Error = w.strerror := by simp [Runner.Chk, hh, hr]
    refine ⟨e1, e2, fun s => ?_⟩
    obtain ⟨_, u2, u3, u4, _⟩ := updateStats_fields s (Runner.Chk w rsr)
    rw [e1] at u2 u3
    rw [e2] at u4
    refine ⟨by simpa using u3, by simpa using u2, fun he => ?_⟩
    simpa [he] using u4
  · intro hh hr hcode
    have e1 : (Runner.Chk w rsr).IsChkSuccess = false := by
      simp only [Runner.Chk, hh, hr, hcode, decide_False]
      simp
    have e2 : (Runner.Chk w rsr).Error = "" := by simp [Runner.Chk, hh, hr]
    refine ⟨e1, e2, fun s => ?_⟩
    obtain ⟨_, u2, u3, u4, _⟩ := updateStats_fields s (Runner.Chk w rsr)
    rw [e1] at u2 u3
    rw [e2] at u4
    exact ⟨by simpa using u3, by simpa using u2, by simpa using u4⟩
  · intro hh
    have e1 : (Runner.Chk w rsr).IsChkSuccess = false := by simp [Runner.Chk, hh]
    have e2 : (Runner.Chk w rsr).Error = "Failed to create curl handle" := by
      simp [Runner.Chk, hh]
    refine ⟨e1, e2, fun s => ?_⟩
    obtain ⟨_, _, u3, u4, _⟩ := updateStats_fields s (Runner.Chk w rsr)
    rw [e1] at u3
    rw [e2] at u4
    have hne : ("Failed to create curl handle" : String) ≠ "" := by decide
    exact ⟨by simpa using u3, by simpa [hne] using u4⟩
  · unfold Runner.Chk
    split_ifs <;> rfl

/-- Witness of `Chk_classification`: a `200` is a success; a `404` is a failure with an empty
error; a timed-out transfer is a failure whose error is the text of libcurl; without a handle
the error is `"Failed to create curl handle"`. -/
theorem Chk_classification_witness :
    (Runner.Chk healthy10ms { ID := "rsr-1", Dest := "http://localhost:8080/health" }).IsChkSuccess
      = true
    ∧ ((Runner.Chk notFound10ms
          { ID := "rsr-1", Dest := "http://localhost:8080/health" }).IsChkSuccess = false
      ∧ (Runner.Chk notFound10ms
          { ID := "rsr-1", Dest := "http://localhost:8080/health" }).Error = "")
    ∧ ((Runner.Chk timedOut
          { ID := "rsr-1", Dest := "http://localhost:8080/health" }).IsChkSuccess = false
      ∧ (Runner.Chk timedOut
          { ID := "rsr-1", Dest := "http://localhost:8080/health" }).Error
        = "Timeout was reached")
    ∧ ((Runner.Chk noHandle
          { ID := "rsr-1", Dest := "http://localhost:8080/health" }).IsChkSuccess = false
      ∧ (Runner.Chk noHandle
          { ID := "rsr-1", Dest := "http://localhost:8080/health" }).Error
        = "Failed to create curl handle") :=
  ⟨(Chk_classification healthy10ms _).1.mpr ⟨rfl, rfl, by decide, by decide⟩,
   ⟨((Chk_classification notFound10ms _).2.2.1 rfl rfl (by decide)).1,
    ((Chk_classification notFound10ms _).2.2.1 rfl rfl (by decide)).2.1⟩,
   ⟨((Chk_classification timedOut _).2.1 rfl (by decide)).1,
    ((Chk_classification timedOut _).2.1 rfl (by decide)).2.1⟩,
   ⟨((Chk_classification noHandle _).2.2.2.1 rfl).1,
    ((Chk_classification noHandle _).2.2.2.1 rfl).2.1⟩⟩

/-- C8. For `count >= 0`, `GenerateRsrs` returns `count` targets; the `i`-th (from 0) has ID
`rsr-` followed by the decimal text of `i + 1` and destination `baseURL ++ "/health"`; the IDs
are pairwise distinct. -/
theorem GenerateRsrs_spec (baseURL : String) (count : Int) (h : 0 ≤ count) :
    ∃ rsrs, GenerateRsrs baseURL count = some rsrs
      ∧ (rsrs.length : Int) = count
      ∧ (∀ i : Nat, i < rsrs.length →
          rsrs.get? i = some { ID := "rsr-" ++ toString (i + 1), Dest := baseURL ++ "/health" })
      ∧ (rsrs.map Rsr.ID).Nodup
      ∧ rsrs.map Rsr.ID = (List.range rsrs.length).map (fun i => "rsr-" ++ toString (i + 1)) := by
  have hg : GenerateRsrs baseURL count = some ((List.range count.toNat).map fun i =>
      { ID := "rsr-" ++ toString (i + 1), Dest := baseURL ++ "/health" }) := by
    simp only [GenerateRsrs, not_lt.mpr h, if_false]
  refine ⟨_, hg, ?_, ?_, ?_, ?_⟩
  · simp [Int.toNat_of_nonneg h]
  · intro i hi
    simp only [List.length_map, List.length_range] at hi
    simp [List.get?_eq_getElem?, List.getElem?_map, List.getElem?_range hi]
  · simp only [List.map_map]
    exact (List.nodup_range _).map rsr_id_injective
  · simp [List.map_map, Function.comp_def]

/-- Witness of `GenerateRsrs_spec` at `count = 3`. -/
theorem GenerateRsrs_spec_witness :
    (0 : Int) ≤ 3
    ∧ GenerateRsrs "http://localhost:8080" 3
        = some [{ ID := "rsr-1", Dest := "http://localhost:8080/health" },
                { ID := "rsr-2", Dest := "http://localhost:8080/health" },
                { ID := "rsr-3", Dest := "http://localhost:8080/health" }]
    ∧ ∃ rsrs, GenerateRsrs "http://localhost:8080" 3 = some rsrs ∧ (rsrs.length : Int) = 3
        ∧ (rsrs.map Rsr.ID).Nodup :=
  ⟨by decide, by decide, by
    obtain ⟨rsrs, h1, h2, _, h4, _⟩ := GenerateRsrs_spec "http://localhost:8080" 3 (by decide)
    exact ⟨rsrs, h1, h2, h4⟩⟩

/-- C9. An outcome of `Chk` with a non-empty `Error` is not a success; so after recording any
sequence of outcomes of `Chk` from the zero statistics, and in every state reached by a run of
`CheckRsr` whose probes are calls of `Chk`, `Errors <= Failures <= Total`. -/
theorem Chk_errors_le_failures (calls : List (Transfer × Rsr)) :
    (∀ (w : Transfer) (rsr : Rsr),
        (Runner.Chk w rsr).Error ≠ "" → (Runner.Chk w rsr).IsChkSuccess = false)
    ∧ ((calls.map fun c => Runner.Chk c.1 c.2).foldl updateStats Stats.zero).Errors
        ≤ ((calls.map fun c => Runner.Chk c.1 c.2).foldl updateStats Stats.zero).Failures
    ∧ ((calls.map fun c => Runner.Chk c.1 c.2).foldl updateStats Stats.zero).Failures
        ≤ ((calls.map fun c => Runner.Chk c.1 c.2).foldl updateStats Stats.zero).Total
    ∧ (∀ (max : Int) (world : Rsr → Transfer) (rsrs : List Rsr) (tr : List Action) (s : State),
        run max (fun r => Runner.Chk (world r) r) tr (init rsrs) = some s →
          s.stats.Errors ≤ s.stats.Failures ∧ s.stats.Failures ≤ s.stats.Total) := by
  have hfold := foldl_updateStats_errors (calls.map fun c => Runner.Chk c.1 c.2) (by
    intro r hr
    simp only [List.mem_map] at hr
    obtain ⟨c, _, rfl⟩ := hr
    exact Chk_error_not_success c.1 c.2)
  refine ⟨Chk_error_not_success, hfold.1, hfold.2, ?_⟩
  intro max world rsrs tr s hrun
  obtain ⟨done, hst⟩ := run_stats_fold max (fun r => Runner.Chk (world r) r) rsrs tr s hrun
  rw [hst]
  apply foldl_updateStats_errors
  intro r hr
  simp only [List.mem_map] at hr
  obtain ⟨c, _, rfl⟩ := hr
  exact Chk_error_not_success (world c) c

/-- C10, as amended. A runner whose timeout is a finite `double` of value `q` seconds with
`0 <= q < 2^63` hands libcurl `floor(q)` both as `CURLOPT_TIMEOUT` and as
`CURLOPT_CONNECTTIMEOUT`; that is `0` whenever `q < 1`, and it equals `q` exactly when `q` is a
whole number. -/
theorem curlOptions_timeout (r : Runner) (rsr : Rsr) (q : ℚ)
    (hq : r.timeout.toRat = some q) (h0 : 0 ≤ q) (hmax : q < 2 ^ 63) :
    ∃ o, r.curlOptions rsr = some o
      ∧ o.TIMEOUT = ⌊q⌋ ∧ o.CONNECTTIMEOUT = ⌊q⌋
      ∧ (q < 1 → o.TIMEOUT = 0)
      ∧ (((o.TIMEOUT : ℚ) = q) ↔ ∃ z : Int, q = z) := by
  obtain ⟨t, max⟩ := r
  cases t with
  | nonfinite => simp [F64.toRat] at hq
  | finite k =>
    simp only [F64.toRat, Option.some.injEq] at hq
    have hk : 0 ≤ k := by
      by_contra hneg
      push_neg at hneg
      have : (k : ℚ) / 2 ^ 1074 < 0 := div_neg_of_neg_of_pos (by exact_mod_cast hneg) (by positivity)
      rw [hq] at this
      linarith
    have hfl : Int.tdiv k (2 ^ 1074) = ⌊q⌋ := by rw [tdiv_units k hk, hq]
    have hlo : -(2 ^ 63) ≤ ⌊q⌋ := by
      have : (0 : Int) ≤ ⌊q⌋ := Int.floor_nonneg.mpr h0
      linarith
    have hhi : ⌊q⌋ < 2 ^ 63 := by
      rw [Int.floor_lt]
      exact_mod_cast hmax
    refine ⟨{ URL := rsr.Dest, HTTPHEADER := ["User-Agent: Checker/1.0", "Connection: close"],
              SSL_VERIFYPEER := 0, SSL_VERIFYHOST := 0, TIMEOUT := ⌊q⌋, CONNECTTIMEOUT := ⌊q⌋ },
            ?_, rfl, rfl, ?_, ?_⟩
    · simp only [Runner.curlOptions, F64.static_cast_long, hfl, hlo, hhi, and_self, if_true]
    · intro h1
      exact Int.floor_eq_zero_iff.mpr ⟨h0, h1⟩
    · constructor
      · intro h
        exact ⟨⌊q⌋, h.symm⟩
      · rintro ⟨z, hz⟩
        show ((⌊q⌋ : Int) : ℚ) = q
        rw [hz, Int.floor_intCast]



/-- Witness of `curlOptions_timeout` at the timeout of `-timeout 500ms`: half a second is
handed to libcurl as `0`. -/
theorem curlOptions_timeout_witness :
    parse_duration "500ms" = some (F64.finite (2 ^ 1073))
    ∧ (F64.finite (2 ^ 1073)).toRat = some (1 / 2)
    ∧ ∃ o, Runner.curlOptions { timeout := F64.finite (2 ^ 1073), max := 1000 }
          { ID := "rsr-1", Dest := "http://localhost:8080/health" } = some o
        ∧ o.TIMEOUT = 0 ∧ o.CONNECTTIMEOUT = 0 := by
  have hq : (F64.finite (2 ^ 1073)).toRat = some (1 / 2) := by
    simp only [F64.toRat, Option.some.injEq]
    simp only [Int.cast_pow, Int.cast_ofNat]
    rw [div_eq_div_iff (pow_ne_zero _ two_ne_zero) two_ne_zero, one_mul, ← pow_succ]
  refine ⟨by decide!, hq, ?_⟩
  obtain ⟨o, ho, ht, hc, hlt, _⟩ :=
    curlOptions_timeout { timeout := F64.finite (2 ^ 1073), max := 1000 }
      { ID := "rsr-1", Dest := "http://localhost:8080/health" } (1 / 2) hq (by norm_num)
      (by norm_num)
  have hz : o.TIMEOUT = 0 := hlt (by norm_num)
  exact ⟨o, ho, hz, by rw [hc, ← ht, hz]⟩

/-- C10 as stated fails. The timeout of `-timeout 9223372036854775808` is the `double` `2^63`,
which is `>= 0`; its floor `2^63` is not a `long`, the cast `static_cast<long>` is undefined
there, and `Chk` has no defined value to hand to libcurl. -/
theorem curlOptions_timeout_counterexample :
    parse_duration "9223372036854775808" = some (F64.finite (2 ^ 63 * 2 ^ 1074))
    ∧ F64.static_cast_long (F64.finite (2 ^ 63 * 2 ^ 1074)) = none
    ∧ Runner.curlOptions { timeout := F64.finite (2 ^ 63 * 2 ^ 1074), max := 1000 }
        { ID := "rsr-1", Dest := "http://localhost:8080/health" } = none
    ∧ ¬ (Int.tdiv (2 ^ 63 * 2 ^ 1074) (2 ^ 1074) < 2 ^ 63) := by
  refine ⟨?_, ?_, ?_, ?_⟩ <;> decide!

end Obftest
